import Mathlib

/-!
Shallow embedding of `pkg/model/workflow.go` of the `act` workflow model:
the workflow document model, the polymorphic field normalizer (`On`, `Needs`),
the matrix expander (`GetMatrixes`, `commonKeysMatch`) and the step
descriptor (`Type`, `GetEnv`), together with theorems settling the spec
claims about them.

Go maps are embedded as association lists (`List (key × value)`); Go map
mutation is embedded as explicit state passing: a Go method that mutates its
receiver is a Lean function that also returns the updated receiver.
Dynamically typed YAML values (`interface{}`) are embedded as the inductive
`Value`; the Go type assertion `v.(map[string]interface{})`, which panics on
non-map values, is embedded as an `Option`-valued projection, and the
functions performing it return `Option` accordingly.
-/

namespace ActModel

/-- A decoded YAML value (`interface{}` in the Go source): a string, integer
or boolean scalar, or a decoded mapping. -/
inductive Value where
  | str : String → Value
  | int : Int → Value
  | bool : Bool → Value
  | obj : List (String × Value) → Value

/-- A matrix variant: `map[string]interface{}` in the Go source. -/
abbrev Variant := List (String × Value)

mutual

def Value.decEq : (a b : Value) → Decidable (a = b)
  | .str x, .str y =>
    match String.decEq x y with
    | isTrue h => isTrue (by rw [h])
    | isFalse h => isFalse (fun hh => h (by cases hh; rfl))
  | .str _, .int _ => isFalse (fun h => nomatch h)
  | .str _, .bool _ => isFalse (fun h => nomatch h)
  | .str _, .obj _ => isFalse (fun h => nomatch h)
  | .int _, .str _ => isFalse (fun h => nomatch h)
  | .int x, .int y =>
    match Int.decEq x y with
    | isTrue h => isTrue (by rw [h])
    | isFalse h => isFalse (fun hh => h (by cases hh; rfl))
  | .int _, .bool _ => isFalse (fun h => nomatch h)
  | .int _, .obj _ => isFalse (fun h => nomatch h)
  | .bool _, .str _ => isFalse (fun h => nomatch h)
  | .bool _, .int _ => isFalse (fun h => nomatch h)
  | .bool x, .bool y =>
    match Bool.decEq x y with
    | isTrue h => isTrue (by rw [h])
    | isFalse h => isFalse (fun hh => h (by cases hh; rfl))
  | .bool _, .obj _ => isFalse (fun h => nomatch h)
  | .obj _, .str _ => isFalse (fun h => nomatch h)
  | .obj _, .int _ => isFalse (fun h => nomatch h)
  | .obj _, .bool _ => isFalse (fun h => nomatch h)
  | .obj xs, .obj ys =>
    match Value.decEqList xs ys with
    | isTrue h => isTrue (by rw [h])
    | isFalse h => isFalse (fun hh => h (by cases hh; rfl))

def Value.decEqList : (xs ys : List (String × Value)) → Decidable (xs = ys)
  | [], [] => isTrue rfl
  | [], _ :: _ => isFalse (fun h => nomatch h)
  | _ :: _, [] => isFalse (fun h => nomatch h)
  | (k, v) :: xs, (k', v') :: ys =>
    match String.decEq k k', Value.decEq v v', Value.decEqList xs ys with
    | isTrue h1, isTrue h2, isTrue h3 => isTrue (by rw [h1, h2, h3])
    | isFalse h1, _, _ => isFalse (fun hh => h1 (by cases hh; rfl))
    | _, isFalse h2, _ => isFalse (fun hh => h2 (by cases hh; rfl))
    | _, _, isFalse h3 => isFalse (fun hh => h3 (by cases hh; rfl))

end

instance : DecidableEq Value := Value.decEq

/-- A decoded YAML node (`yaml.Node` in the Go source), abstracted by kind:
a scalar holding a string, a sequence of string scalars, a mapping (of which
the embedded functions only ever use the keys), or any other node kind
(including the zero node of an absent field). -/
inductive YamlNode where
  | scalar : String → YamlNode
  | sequence : List String → YamlNode
  | mapping : List String → YamlNode
  | other : YamlNode
deriving DecidableEq

/-- StepType describes what type of step we are about to run. -/
inductive StepType where
  | stepTypeRun
  | stepTypeUsesDockerURL
  | stepTypeUsesActionLocal
  | stepTypeUsesActionRemote
deriving DecidableEq

/-- ContainerSpec is the specification of the container to use for the job. -/
structure ContainerSpec where
  image : String
  env : List (String × String)
  ports : List Int
  volumes : List String
  options : String
  entrypoint : String
  args : String
  name : String
  reuse : Bool
deriving DecidableEq

/-- Step is the structure of one step in a job (`Step` in the Go source);
`withParams` embeds the `with` field. -/
structure Step where
  id : String
  ifCond : String
  name : String
  uses : String
  run : String
  workingDirectory : String
  shell : String
  env : List (String × String)
  withParams : List (String × String)
  continueOnError : Bool
  timeoutMinutes : Int
deriving DecidableEq

/-- Strategy for the job. -/
structure Strategy where
  failFast : Bool
  maxParallel : Int
  matrix : List (String × List Value)
deriving DecidableEq

/-- Job is the structure of one job in a workflow. -/
structure Job where
  name : String
  rawNeeds : YamlNode
  runsOn : String
  env : List (String × String)
  ifCond : String
  steps : List Step
  timeoutMinutes : Int
  container : Option ContainerSpec
  services : List (String × ContainerSpec)
  strategy : Option Strategy
deriving DecidableEq

/-- Workflow is the structure of the files in `.github/workflows`. -/
structure Workflow where
  name : String
  rawOn : YamlNode
  env : List (String × String)
  jobs : List (String × Job)
deriving DecidableEq

/-- On events for the workflow: a scalar decodes to a one-element list, a
sequence decodes to itself, a mapping contributes its keys, and any other
node kind falls through to `nil`. -/
def Workflow.On (w : Workflow) : List String :=
  match w.rawOn with
  | .scalar val => [val]
  | .sequence val => val
  | .mapping keys => keys
  | .other => []

/-- Needs list for Job: the source's switch handles only the scalar and
sequence node kinds; every other kind, the mapping kind included, falls
through to `nil`. -/
def Job.Needs (j : Job) : List String :=
  match j.rawNeeds with
  | .scalar val => [val]
  | .sequence val => val
  | .mapping _ => []
  | .other => []

/-- Go map insertion `m[k] = v`: overwrite the entry for `k` when present,
append it otherwise. -/
def setKey {α : Type} : List (String × α) → String → α → List (String × α)
  | [], k, v => [(k, v)]
  | p :: rest, k, v => if p.1 == k then (k, v) :: rest else p :: setKey rest k v

/-- Go map deletion `delete(m, k)`: drop every entry for `k`. -/
def eraseKey {α : Type} (k : String) (m : List (String × α)) : List (String × α) :=
  m.filter (fun p => p.1 != k)

/-- The Go type assertion `v.(map[string]interface{})`: `none` embeds the
panic on a non-map value. -/
def Value.asMap : Value → Option Variant
  | .obj m => some m
  | _ => none

/-- Does every key of `a` that is also a key of `b` carry equal values in
both (`commonKeysMatch` in the Go source)? -/
def commonKeysMatch (a b : Variant) : Bool :=
  a.all (fun p =>
    match List.lookup p.1 b with
    | some bVal => p.2 == bVal
    | none => true)

/-- Modelled from the spec: `common.CartesianProduct` lives in `pkg/common`,
which is not among the provided sources. Per the spec, it yields one Variant
per combination of (axis, one of its candidate values), with total count the
product of the axis list lengths, preserving axis order and value order from
the declared lists. -/
def CartesianProduct : List (String × List Value) → List Variant
  | [] => [[]]
  | (k, vs) :: rest =>
    let tails := CartesianProduct rest
    vs.flatMap (fun v => tails.map (fun t => (k, v) :: t))

/-- The inner include loop body of `GetMatrixes`: `for k, v := range include
\x7b matrix[k] = v \x7d`. -/
def mergeEntries (m : Variant) (inc : Variant) : Variant :=
  inc.foldl (fun acc p => setKey acc p.1 p.2) m

/-- The include loop of `GetMatrixes`: each include entry is matched against
the current (already partially merged) candidate, in declaration order. -/
def applyIncludes (includes : List Variant) (m : Variant) : Variant :=
  includes.foldl (fun acc inc => if commonKeysMatch acc inc then mergeEntries acc inc else acc) m

/-- GetMatrixes returns the matrix cross product. The Go method mutates
`j.Strategy.Matrix` in place (it deletes the `include` and `exclude` keys);
the embedding returns the updated job alongside the variants. A failed type
assertion on an include or exclude element (a Go panic) yields `none`. -/
def Job.GetMatrixes (j : Job) : Option (List Variant × Job) :=
  match j.strategy with
  | some s => do
    let includes ← ((List.lookup "include" s.matrix).getD []).mapM Value.asMap
    let m1 := eraseKey "include" s.matrix
    let excludes ← ((List.lookup "exclude" m1).getD []).mapM Value.asMap
    let m2 := eraseKey "exclude" m1
    let matrixProduct := CartesianProduct m2
    let matrixes :=
      (matrixProduct.filter
        (fun m => !(excludes.any (fun exc => commonKeysMatch m exc)))).map
        (applyIncludes includes)
    some (matrixes, { j with strategy := some { s with matrix := m2 } })
  | none => some ([([] : Variant)], j)

/-- Go `strings.HasPrefix`, embedded over the strings' characters. -/
def hasPrefixStr (s p : String) : Bool :=
  p.data.isPrefixOf s.data

/-- Type returns the type of the step (`Type` in the Go source). -/
def Step.stepType (s : Step) : StepType :=
  if s.run != "" then .stepTypeRun
  else if hasPrefixStr s.uses "docker://" then .stepTypeUsesDockerURL
  else if hasPrefixStr s.uses "./" then .stepTypeUsesActionLocal
  else .stepTypeUsesActionRemote

/-- Is `c` inside the character class `[A-Z0-9-]`? -/
def keepChar (c : Char) : Bool :=
  (decide ('A' ≤ c) && decide (c ≤ 'Z')) || (decide ('0' ≤ c) && decide (c ≤ '9')) || c == '-'

/-- One character of `regexp.MustCompile("[^A-Z0-9-]").ReplaceAllString(_, "_")`. -/
def sanitizeChar (c : Char) : Char :=
  if keepChar c then c else '_'

/-- Go `strings.ToUpper`, embedded character by character. -/
def stringToUpper (s : String) : String :=
  String.mk (s.data.map Char.toUpper)

/-- Go `regexp.MustCompile("[^A-Z0-9-]").ReplaceAllString(s, "_")`: the
pattern matches single characters, so the replacement is character by
character. -/
def sanitizeKey (s : String) : String :=
  String.mk (s.data.map sanitizeChar)

/-- GetEnv gets the env for a step: the declared `env` entries copied first,
then for each `with` entry the key `INPUT_` + the upper-cased name with every
character outside `[A-Z0-9-]` replaced by `_` (ASCII case mapping suffices
for the embedded strings). -/
def Step.GetEnv (s : Step) : List (String × String) :=
  let rtnEnv := s.env.foldl (fun acc p => setKey acc p.1 p.2) []
  s.withParams.foldl
    (fun acc p =>
      let envKey := sanitizeKey (stringToUpper p.1)
      setKey acc ("INPUT_" ++ stringToUpper envKey) p.2)
    rtnEnv

/-- The loop of `GetJob` over the jobs map: on the matching id, default an
empty `Name` to the id (mutating the stored job) and return the job. -/
def getJobList : String → List (String × Job) → Option Job × List (String × Job)
  | _, [] => (none, [])
  | jobID, (id, j) :: rest =>
    if jobID == id then
      let j' := if j.name == "" then { j with name := id } else j
      (some j', (id, j') :: rest)
    else
      let r := getJobList jobID rest
      (r.1, (id, j) :: r.2)

/-- GetJob will get a job by name in the workflow; the Go method mutates the
stored job's `Name` through its pointer, so the embedding also returns the
updated workflow. -/
def Workflow.GetJob (w : Workflow) (jobID : String) : Option Job × Workflow :=
  let r := getJobList jobID w.jobs
  (r.1, { w with jobs := r.2 })

/-- The matrix after `GetMatrixes` has extracted `include` and `exclude`. -/
def strippedMatrix (s : Strategy) : List (String × List Value) :=
  eraseKey "exclude" (eraseKey "include" s.matrix)

/-- The strategy left behind by `GetMatrixes`. -/
def strippedStrategy (s : Strategy) : Strategy :=
  { s with matrix := strippedMatrix s }

/-- The job state left behind by `GetMatrixes` on a job with strategy `s`. -/
def strippedJob (j : Job) (s : Strategy) : Job :=
  { j with strategy := some (strippedStrategy s) }

/-! ### Concrete instances used by the witnesses and counterexamples -/

/-- A job with every field empty or absent. -/
def emptyJob : Job :=
  { name := "", rawNeeds := .other, runsOn := "", env := [], ifCond := "", steps := [],
    timeoutMinutes := 0, container := none, services := [], strategy := none }

/-- A strategy with the given matrix and zero-valued scalar fields. -/
def mkStrategy (m : List (String × List Value)) : Strategy :=
  { failFast := false, maxParallel := 0, matrix := m }

/-- A step with every field empty. -/
def emptyStep : Step :=
  { id := "", ifCond := "", name := "", uses := "", run := "", workingDirectory := "",
    shell := "", env := [], withParams := [], continueOnError := false,
    timeoutMinutes := 0 }

/-- Strategy `matrix: {a: [1, 2], b: [x]}` with no include or exclude. -/
def sC1 : Strategy := mkStrategy [("a", [.int 1, .int 2]), ("b", [.str "x"])]

/-- A job carrying `sC1`. -/
def jC1 : Job := { emptyJob with strategy := some sC1 }

/-- Strategy `matrix: {a: [1, 2]}` with `exclude: [{}]`. -/
def sC2 : Strategy := mkStrategy [("a", [.int 1, .int 2]), ("exclude", [.obj []])]

/-- A job carrying `sC2`. -/
def jC2 : Job := { emptyJob with strategy := some sC2 }

/-- Strategy `matrix: {a: [1, 2]}` with `include: [{a: 1, b: 9}]`. -/
def sC3 : Strategy :=
  mkStrategy [("a", [.int 1, .int 2]), ("include", [.obj [("a", .int 1), ("b", .int 9)]])]

/-- A job carrying `sC3`. -/
def jC3 : Job := { emptyJob with strategy := some sC3 }

/-- A workflow whose trigger field is a mapping node with the key `push`. -/
def wC5 : Workflow := { name := "", rawOn := .mapping ["push"], env := [], jobs := [] }

/-- A job whose dependency field is a mapping node with the key `push`. -/
def jC5 : Job := { emptyJob with rawNeeds := .mapping ["push"] }

/-- A step with the input parameter `node-version: "16"`. -/
def stepC6 : Step := { emptyStep with withParams := [("node-version", "16")] }

/-- A step with a `run` body and a `uses` reference. -/
def stepC7run : Step := { emptyStep with run := "echo hi", uses := "actions/checkout@v3" }

/-- A step whose `uses` is a container image URL. -/
def stepC7docker : Step := { emptyStep with uses := "docker://alpine" }

/-- A step whose `uses` is a local action path. -/
def stepC7local : Step := { emptyStep with uses := "./local-action" }

/-- A step whose `uses` is a remote action reference. -/
def stepC7remote : Step := { emptyStep with uses := "actions/checkout@v3" }

/-- A workflow with one job, stored under the id `build` with an empty name. -/
def wC8 : Workflow := { name := "", rawOn := .other, env := [], jobs := [("build", emptyJob)] }

/-- Strategy `matrix: {a: [1, 2]}` with `exclude: [{a: 1}]`. -/
def sC10 : Strategy :=
  mkStrategy [("a", [.int 1, .int 2]), ("exclude", [.obj [("a", .int 1)]])]

/-- A job carrying `sC10`. -/
def jC10 : Job := { emptyJob with strategy := some sC10 }

/-! ### Association list lemmas -/

theorem lookup_some_mem {α : Type} {k : String} {v : α} {l : List (String × α)}
    (h : List.lookup k l = some v) : (k, v) ∈ l := by
  induction l with
  | nil => simp [List.lookup] at h
  | cons p rest ih =>
    rw [List.lookup] at h
    by_cases hk : k = p.1
    · subst hk
      simp at h
      subst h
      exact List.mem_cons_self _ _
    · have : (k == p.1) = false := by simp [hk]
      rw [this] at h
      exact List.mem_cons_of_mem _ (ih h)

theorem lookup_eq_some_of_mem_nodup {α : Type} {k : String} {v : α}
    {l : List (String × α)} (hnd : (l.map Prod.fst).Nodup) (hm : (k, v) ∈ l) :
    List.lookup k l = some v := by
  induction l with
  | nil => simp at hm
  | cons p rest ih =>
    simp only [List.map_cons, List.nodup_cons] at hnd
    rcases List.mem_cons.mp hm with h | h
    · subst h
      simp [List.lookup]
    · have hk : k ≠ p.1 := by
        intro hkeq
        exact hnd.1 (hkeq ▸ (List.mem_map.mpr ⟨(k, v), h, rfl⟩))
      have : (k == p.1) = false := by simp [hk]
      rw [List.lookup, this]
      exact ih hnd.2 h

theorem lookup_eq_none_iff {α : Type} {k : String} {l : List (String × α)} :
    List.lookup k l = none ↔ ∀ p ∈ l, p.1 ≠ k := by
  induction l with
  | nil => simp [List.lookup]
  | cons p rest ih =>
    rw [List.lookup]
    by_cases hk : k = p.1
    · subst hk
      simp
    · have : (k == p.1) = false := by simp [hk]
      rw [this]
      simp only [List.mem_cons]
      constructor
      · intro h q hq
        rcases hq with rfl | hq
        · exact fun hh => hk hh.symm
        · exact ih.mp h q hq
      · intro h
        exact ih.mpr (fun q hq => h q (Or.inr hq))

theorem lookup_setKey_self {α : Type} (l : List (String × α)) (k : String) (v : α) :
    List.lookup k (setKey l k v) = some v := by
  induction l with
  | nil => simp [setKey, List.lookup]
  | cons p rest ih =>
    rw [setKey]
    by_cases hk : p.1 = k
    · simp [hk, List.lookup]
    · have h1 : (p.1 == k) = false := beq_eq_false_iff_ne.mpr hk
      have h2 : (k == p.1) = false := beq_eq_false_iff_ne.mpr (fun hh => hk hh.symm)
      rw [h1]
      simp only [Bool.false_eq_true, if_false, List.lookup, h2]
      exact ih

theorem lookup_setKey_ne {α : Type} (l : List (String × α)) {k k' : String} (v : α)
    (h : k' ≠ k) : List.lookup k' (setKey l k v) = List.lookup k' l := by
  have hkk : (k' == k) = false := beq_eq_false_iff_ne.mpr h
  induction l with
  | nil => simp [setKey, List.lookup, hkk]
  | cons p rest ih =>
    rw [setKey]
    by_cases hk : p.1 = k
    · subst hk
      simp [List.lookup, hkk]
    · have h1 : (p.1 == k) = false := beq_eq_false_iff_ne.mpr hk
      rw [h1]
      simp only [Bool.false_eq_true, if_false, List.lookup]
      by_cases hk' : k' = p.1
      · simp [hk']
      · have h2 : (k' == p.1) = false := beq_eq_false_iff_ne.mpr hk'
        rw [h2]
        exact ih

theorem lookup_eraseKey_self {α : Type} (k : String) (l : List (String × α)) :
    List.lookup k (eraseKey k l) = none := by
  rw [lookup_eq_none_iff]
  intro p hp
  have := List.of_mem_filter hp
  simpa using this

theorem lookup_eraseKey_ne {α : Type} {k k' : String} (l : List (String × α))
    (h : k' ≠ k) : List.lookup k' (eraseKey k l) = List.lookup k' l := by
  induction l with
  | nil => simp [eraseKey]
  | cons p rest ih
  =>
    rw [eraseKey, List.filter]
    by_cases hk : p.1 = k
    · have : (p.1 != k) = false := by simp [hk]
      rw [this]
      have : (k' == p.1) = false := by simp [hk ▸ h]
      rw [List.lookup, this]
      exact ih
    · have : (p.1 != k) = true := by simp [hk]
      rw [this]
      rw [List.lookup, List.lookup]
      cases hkk : (k' == p.1) with
      | true => rfl
      | false => exact ih

theorem eraseKey_eq_self {α : Type} {k : String} {l : List (String × α)}
    (h : List.lookup k l = none) : eraseKey k l = l := by
  rw [lookup_eq_none_iff] at h
  rw [eraseKey]
  exact List.filter_eq_self.mpr (fun p hp => by simpa using h p hp)

/-! ### Cartesian product lemmas -/

theorem length_CartesianProduct (axes : List (String × List Value)) :
    (CartesianProduct axes).length = (axes.map (fun a => a.2.length)).prod := by
  induction axes with
  | nil => simp [CartesianProduct]
  | cons a rest ih =>
    obtain ⟨k, vs⟩ := a
    have aux : ∀ (ws : List Value),
        (ws.flatMap fun v => (CartesianProduct rest).map fun t => (k, v) :: t).length
          = ws.length * (CartesianProduct rest).length := by
      intro ws
      induction ws with
      | nil => simp
      | cons v wt ihw =>
        simp only [List.flatMap_cons, List.length_append, List.length_map, ihw,
          List.length_cons]
        ring
    simp only [CartesianProduct]
    rw [aux, ih]
    simp only [List.map_cons, List.prod_cons]

theorem mem_CartesianProduct {m : Variant} {axes : List (String × List Value)} :
    m ∈ CartesianProduct axes ↔
      List.Forall₂ (fun (p : String × Value) (a : String × List Value) =>
        p.1 = a.1 ∧ p.2 ∈ a.2) m axes := by
  induction axes generalizing m with
  | nil =>
    simp [CartesianProduct, List.forall₂_nil_right_iff]
  | cons a rest ih =>
    obtain ⟨k, vs⟩ := a
    simp only [CartesianProduct, List.mem_flatMap, List.mem_map]
    constructor
    · rintro ⟨v, hv, t, ht, rfl⟩
      exact List.Forall₂.cons ⟨rfl, hv⟩ (ih.mp ht)
    · intro h
      rcases List.forall₂_cons_right_iff.mp h with ⟨p, m', hp, hm', rfl⟩
      obtain ⟨pk, pv⟩ := p
      obtain ⟨hp1, hp2⟩ := hp
      simp only at hp1 hp2
      subst hp1
      exact ⟨pv, hp2, m', ih.mpr hm', rfl⟩

/-! ### Key matching and include merging lemmas -/

theorem keys_of_forall2 {m : Variant} {axes : List (String × List Value)}
    (h : List.Forall₂ (fun (p : String × Value) (a : String × List Value) =>
      p.1 = a.1 ∧ p.2 ∈ a.2) m axes) : m.map Prod.fst = axes.map Prod.fst := by
  induction h with
  | nil => rfl
  | cons hpa _ ih => simp [hpa.1, ih]

theorem commonKeysMatch_iff {a b : Variant} (hnd : (a.map Prod.fst).Nodup) :
    commonKeysMatch a b = true ↔
      ∀ k v w, List.lookup k a = some v → List.lookup k b = some w → v = w := by
  rw [commonKeysMatch, List.all_eq_true]
  constructor
  · intro h k v w hka hkb
    have hmem := lookup_some_mem hka
    have ht := h (k, v) hmem
    simp only [hkb] at ht
    exact eq_of_beq ht
  · intro h p hp
    obtain ⟨k, v⟩ := p
    cases hkb : List.lookup k b with
    | none => simp [hkb]
    | some w =>
      have hka : List.lookup k a = some v := lookup_eq_some_of_mem_nodup hnd hp
      have hvw := h k v w hka hkb
      simp [hkb, hvw]

theorem applyIncludes_of_no_match {includes : List Variant} {m : Variant}
    (h : ∀ inc ∈ includes, commonKeysMatch m inc = false) :
    applyIncludes includes m = m := by
  induction includes with
  | nil => rfl
  | cons inc rest ih =>
    rw [applyIncludes, List.foldl_cons, h inc (List.mem_cons_self _ _)]
    simp only [Bool.false_eq_true, if_false]
    exact ih (fun i hi => h i (List.mem_cons_of_mem _ hi))

theorem lookup_mergeEntries_of_none {inc m : Variant} {k : String}
    (h : List.lookup k inc = none) :
    List.lookup k (mergeEntries m inc) = List.lookup k m := by
  induction inc generalizing m with
  | nil => rfl
  | cons p rest ih =>
    rw [List.lookup] at h
    cases hkp : (k == p.1) with
    | true => rw [hkp] at h; simp at h
    | false =>
      rw [hkp] at h
      have hne : k ≠ p.1 := fun hh => by simp [hh] at hkp
      have step : mergeEntries m (p :: rest) = mergeEntries (setKey m p.1 p.2) rest := rfl
      rw [step, ih h, lookup_setKey_ne _ _ hne]

theorem lookup_mergeEntries_of_some {inc m : Variant} {k : String} {v : Value}
    (hnd : (inc.map Prod.fst).Nodup) (h : List.lookup k inc = some v) :
    List.lookup k (mergeEntries m inc) = some v := by
  induction inc generalizing m with
  | nil => simp [List.lookup] at h
  | cons p rest ih =>
    rw [List.lookup] at h
    simp only [List.map_cons, List.nodup_cons] at hnd
    cases hkp : (k == p.1) with
    | true =>
      rw [hkp] at h
      have hk : k = p.1 := eq_of_beq hkp
      have hrest : List.lookup k rest = none := by
        rw [lookup_eq_none_iff]
        intro q hq hqk
        exact hnd.1 (List.mem_map.mpr ⟨q, hq, hqk.trans hk⟩)
      have step : mergeEntries m (p :: rest) = mergeEntries (setKey m p.1 p.2) rest := rfl
      rw [step, lookup_mergeEntries_of_none hrest, hk, lookup_setKey_self]
      exact h
    | false =>
      rw [hkp] at h
      have step : mergeEntries m (p :: rest) = mergeEntries (setKey m p.1 p.2) rest := rfl
      rw [step]
      exact ih hnd.2 h

/-! ### GetMatrixes characterization -/

theorem GetMatrixes_some (j : Job) (s : Strategy) (includes excludes : List Variant)
    (hs : j.strategy = some s)
    (hI : ((List.lookup "include" s.matrix).getD []).mapM Value.asMap = some includes)
    (hE : ((List.lookup "exclude" (eraseKey "include" s.matrix)).getD []).mapM Value.asMap
      = some excludes) :
    j.GetMatrixes = some
      (((CartesianProduct (strippedMatrix s)).filter
          (fun m => !(excludes.any (fun exc => commonKeysMatch m exc)))).map
        (applyIncludes includes),
       strippedJob j s) := by
  rw [Job.GetMatrixes, hs]
  simp only [hI, hE, Option.bind_eq_bind, Option.some_bind]
  rfl

theorem GetMatrixes_some_inv {j : Job} {s : Strategy} {vs : List Variant} {j' : Job}
    (hs : j.strategy = some s) (hGet : j.GetMatrixes = some (vs, j')) :
    ∃ includes excludes : List Variant,
      ((List.lookup "include" s.matrix).getD []).mapM Value.asMap = some includes ∧
      ((List.lookup "exclude" (eraseKey "include" s.matrix)).getD []).mapM Value.asMap
        = some excludes ∧
      vs = ((CartesianProduct (strippedMatrix s)).filter
          (fun m => !(excludes.any (fun exc => commonKeysMatch m exc)))).map
        (applyIncludes includes) ∧
      j' = strippedJob j s := by
  cases hI : ((List.lookup "include" s.matrix).getD []).mapM Value.asMap with
  | none =>
    rw [Job.GetMatrixes, hs] at hGet
    simp only [hI, Option.bind_eq_bind, Option.none_bind] at hGet
    exact Option.noConfusion hGet
  | some includes =>
    cases hE : ((List.lookup "exclude" (eraseKey "include" s.matrix)).getD []).mapM
        Value.asMap with
    | none =>
      rw [Job.GetMatrixes, hs] at hGet
      simp only [hI, hE, Option.bind_eq_bind, Option.some_bind, Option.none_bind] at hGet
      exact Option.noConfusion hGet
    | some excludes =>
      have := GetMatrixes_some j s includes excludes hs hI hE
      rw [this] at hGet
      obtain ⟨h1, h2⟩ := Prod.mk.injEq .. ▸ Option.some.injEq .. ▸ hGet
      exact ⟨includes, excludes, rfl, rfl, h1.symm, h2.symm⟩

theorem map_applyIncludes_nil (l : List Variant) : l.map (applyIncludes []) = l := by
  induction l with
  | nil => rfl
  | cons x xs ih => simp [applyIncludes, ih]

theorem lookup_strippedMatrix_include (s : Strategy) :
    List.lookup "include" (strippedMatrix s) = none := by
  rw [strippedMatrix, lookup_eraseKey_ne _ (by decide), lookup_eraseKey_self]

theorem lookup_strippedMatrix_exclude (s : Strategy) :
    List.lookup "exclude" (strippedMatrix s) = none :=
  lookup_eraseKey_self _ _

theorem strippedJob_eq_self {j : Job} {s : Strategy} (hs : j.strategy = some s)
    (h : strippedMatrix s = s.matrix) : strippedJob j s = j := by
  have hss : strippedStrategy s = s := by
    simp only [strippedStrategy, h]
  simp only [strippedJob, hss, ← hs]

/-- On a strategy whose matrix has no `include` and no `exclude` key,
`GetMatrixes` is the plain Cartesian product of the matrix and the job is
left unchanged. -/
theorem GetMatrixes_plain (j : Job) (s : Strategy) (hs : j.strategy = some s)
    (hinc : List.lookup "include" s.matrix = none)
    (hexc : List.lookup "exclude" s.matrix = none) :
    j.GetMatrixes = some (CartesianProduct s.matrix, j) := by
  have hm1 : eraseKey "include" s.matrix = s.matrix := eraseKey_eq_self hinc
  have hm2 : strippedMatrix s = s.matrix := by
    rw [strippedMatrix, hm1]
    exact eraseKey_eq_self hexc
  have hI : ((List.lookup "include" s.matrix).getD []).mapM Value.asMap
      = some ([] : List Variant) := by rw [hinc]; rfl
  have hE : ((List.lookup "exclude" (eraseKey "include" s.matrix)).getD []).mapM
      Value.asMap = some ([] : List Variant) := by rw [hm1, hexc]; rfl
  rw [GetMatrixes_some j s [] [] hs hI hE]
  rw [strippedJob_eq_self hs hm2, hm2]
  simp only [List.any_nil, Bool.not_false, List.filter_true, map_applyIncludes_nil]

theorem getJobList_of_lookup_none {jobID : String} {l : List (String × Job)}
    (h : List.lookup jobID l = none) : getJobList jobID l = (none, l) := by
  induction l with
  | nil => rfl
  | cons p rest ih =>
    obtain ⟨id, jb⟩ := p
    rw [List.lookup] at h
    cases hk : (jobID == id) with
    | true => rw [hk] at h; simp at h
    | false =>
      rw [hk] at h
      rw [getJobList, hk]
      simp only [Bool.false_eq_true, if_false, ih h]

theorem getJobList_idem {jobID : String} {l : List (String × Job)} {jb : Job}
    (h : List.lookup jobID l = some jb) (hname : jb.name = "") :
    ∃ l', getJobList jobID l = (some { jb with name := jobID }, l') ∧
      getJobList jobID l' = (some { jb with name := jobID }, l') := by
  induction l with
  | nil => simp [List.lookup] at h
  | cons p rest ih =>
    obtain ⟨id, jb'⟩ := p
    rw [List.lookup] at h
    cases hk : (jobID == id) with
    | true =>
      rw [hk] at h
      have hid : jobID = id := eq_of_beq hk
      have hjb : jb' = jb := by simpa using h
      subst hjb
      subst hid
      have hupd : (if jb'.name == "" then { jb' with name := jobID } else jb')
          = { jb' with name := jobID } := by
        simp [hname]
      refine ⟨(jobID, { jb' with name := jobID }) :: rest, ?_, ?_⟩
      · rw [getJobList]
        simp only [beq_self_eq_true, if_true, hupd]
      · rw [getJobList]
        simp only [beq_self_eq_true, if_true]
        by_cases hid0 : jobID = ""
        · subst hid0
          simp
        · simp [hid0]
    | false =>
      rw [hk] at h
      obtain ⟨l', h1, h2⟩ := ih h
      refine ⟨(id, jb') :: l', ?_, ?_⟩
      · rw [getJobList, hk]
        simp only [Bool.false_eq_true, if_false, h1]
      · rw [getJobList, hk]
        simp only [Bool.false_eq_true, if_false, h2]

/-! ### Claim theorems -/

/-- C9: for every job with no Strategy, `GetMatrixes` returns exactly one
variant, and that variant is the empty mapping; the job is left unchanged. -/
theorem C9_no_strategy_single_empty_variant (j : Job) (hs : j.strategy = none) :
    j.GetMatrixes = some ([([] : Variant)], j) := by
  rw [Job.GetMatrixes, hs]

/-- Witness for C9 at the concrete job with no strategy. -/
theorem C9_witness : emptyJob.GetMatrixes = some ([([] : Variant)], emptyJob) :=
  C9_no_strategy_single_empty_variant emptyJob rfl

/-- C1: for a job whose strategy matrix has no `include` and no `exclude`
entry, `GetMatrixes` returns exactly the Cartesian product of the axes: the
number of variants is the product of the axis list lengths, and the variants
are exactly the combinations pairing each axis with one of its candidate
values. -/
theorem C1_cartesian_product (j : Job) (s : Strategy)
    (hs : j.strategy = some s)
    (hinc : List.lookup "include" s.matrix = none)
    (hexc : List.lookup "exclude" s.matrix = none) :
    j.GetMatrixes = some (CartesianProduct s.matrix, j) ∧
    (CartesianProduct s.matrix).length = (s.matrix.map (fun a => a.2.length)).prod ∧
    ∀ m : Variant, m ∈ CartesianProduct s.matrix ↔
      List.Forall₂ (fun (p : String × Value) (a : String × List Value) =>
        p.1 = a.1 ∧ p.2 ∈ a.2) m s.matrix :=
  ⟨GetMatrixes_plain j s hs hinc hexc, length_CartesianProduct s.matrix,
    fun _ => mem_CartesianProduct⟩

/-- Witness for C1 at the matrix with axes `a: [1, 2]` and `b: [x]`. -/
theorem C1_witness :
    jC1.GetMatrixes = some (CartesianProduct sC1.matrix, jC1) ∧
    (CartesianProduct sC1.matrix).length = (sC1.matrix.map (fun a => a.2.length)).prod ∧
    ([("a", Value.int 1), ("b", Value.str "x")] ∈ CartesianProduct sC1.matrix ↔
      List.Forall₂ (fun (p : String × Value) (a : String × List Value) =>
        p.1 = a.1 ∧ p.2 ∈ a.2) [("a", Value.int 1), ("b", Value.str "x")] sC1.matrix) := by
  have h := C1_cartesian_product jC1 sC1 rfl (by decide) (by decide)
  exact ⟨h.1, h.2.1, h.2.2 _⟩

/-- C10: `GetMatrixes` is not idempotent when include or exclude entries are
declared: the first call strips them from the matrix, so a second call on the
returned job state yields the plain Cartesian product with no exclude
filtering and no include merging; with matrix `a: [1, 2]` and
`exclude: [\x7ba: 1\x7d]` the first call returns only `\x7ba: 2\x7d` while the second
returns both `\x7ba: 1\x7d` and `\x7ba: 2\x7d`. -/
theorem C10_not_idempotent :
    (∀ (j : Job) (s : Strategy) (vs : List Variant) (j' : Job),
      j.strategy = some s → j.GetMatrixes = some (vs, j') →
      j'.GetMatrixes = some (CartesianProduct (strippedMatrix s), j')) ∧
    jC10.GetMatrixes = some ([[("a", Value.int 2)]], strippedJob jC10 sC10) ∧
    (strippedJob jC10 sC10).GetMatrixes
      = some ([[("a", Value.int 1)], [("a", Value.int 2)]], strippedJob jC10 sC10) ∧
    ([[("a", Value.int 2)]] : List Variant) ≠ [[("a", Value.int 1)], [("a", Value.int 2)]] := by
  refine ⟨?_, by decide, by decide, by decide⟩
  intro j s vs j' hs hGet
  obtain ⟨_, _, _, _, _, hj'⟩ := GetMatrixes_some_inv hs hGet
  subst hj'
  exact GetMatrixes_plain _ (strippedStrategy s) rfl
    (lookup_strippedMatrix_include s) (lookup_strippedMatrix_exclude s)

/-- Witness for C10: the second call on the state left by the first call over
matrix `a: [1, 2]` with `exclude: [\x7ba: 1\x7d]` is the plain product. -/
theorem C10_witness :
    (strippedJob jC10 sC10).GetMatrixes
      = some (CartesianProduct (strippedMatrix sC10), strippedJob jC10 sC10) :=
  C10_not_idempotent.1 jC10 sC10 [[("a", Value.int 2)]] (strippedJob jC10 sC10)
    rfl (by decide)

/-- C2: an exclude entry matches a candidate of the Cartesian product exactly
when the values agree on every key present in both, a matching exclude entry
removes the candidate from the survivors feeding the output, and the
documented corner case holds: matrix `a: [1, 2]` with an empty exclude entry
produces an empty output. -/
theorem C2_exclude_semantics :
    (∀ (axes : List (String × List Value)) (m e : Variant),
      (axes.map Prod.fst).Nodup → m ∈ CartesianProduct axes →
      (commonKeysMatch m e = true ↔
        ∀ k v w, List.lookup k m = some v → List.lookup k e = some w → v = w)) ∧
    (∀ (j : Job) (s : Strategy) (vs : List Variant) (j' : Job)
      (includes excludes : List Variant),
      j.strategy = some s → j.GetMatrixes = some (vs, j') →
      ((List.lookup "include" s.matrix).getD []).mapM Value.asMap = some includes →
      ((List.lookup "exclude" (eraseKey "include" s.matrix)).getD []).mapM Value.asMap
        = some excludes →
      vs = ((CartesianProduct (strippedMatrix s)).filter
          (fun m => !(excludes.any (fun exc => commonKeysMatch m exc)))).map
        (applyIncludes includes) ∧
      ∀ m e, e ∈ excludes → commonKeysMatch m e = true →
        m ∉ (CartesianProduct (strippedMatrix s)).filter
          (fun m' => !(excludes.any (fun exc => commonKeysMatch m' exc)))) ∧
    (jC2.GetMatrixes).map (fun r => r.1) = some [] := by
  refine ⟨?_, ?_, by decide⟩
  · intro axes m e hnd hm
    have hkeys : m.map Prod.fst = axes.map Prod.fst :=
      keys_of_forall2 (mem_CartesianProduct.mp hm)
    exact commonKeysMatch_iff (hkeys ▸ hnd)
  · intro j s vs j' includes excludes hs hGet hI hE
    obtain ⟨includes', excludes', hI', hE', hvs, hj'⟩ := GetMatrixes_some_inv hs hGet
    rw [hI'] at hI
    rw [hE'] at hE
    rw [Option.some.inj hI, Option.some.inj hE] at hvs
    refine ⟨hvs, ?_⟩
    intro m e he hmatch hmem
    obtain ⟨-, hpred⟩ := List.mem_filter.mp hmem
    have hany : excludes.any (fun exc => commonKeysMatch m exc) = true :=
      List.any_eq_true.mpr ⟨e, he, hmatch⟩
    rw [hany] at hpred
    simp at hpred

/-- Witness for C2: the matching characterization at a one-axis product, and
the drop of the candidate `\x7ba: 1\x7d` under the empty exclude entry. -/
theorem C2_witness :
    (commonKeysMatch [("a", Value.int 1)] [("a", Value.int 2)] = true ↔
      ∀ k v w, List.lookup k [("a", Value.int 1)] = some v →
        List.lookup k [("a", Value.int 2)] = some w → v = w) ∧
    [("a", Value.int 1)] ∉ (CartesianProduct (strippedMatrix sC2)).filter
      (fun m' => !(([([] : Variant)]).any (fun exc => commonKeysMatch m' exc))) := by
  constructor
  · exact C2_exclude_semantics.1 [("a", [Value.int 1, Value.int 2])]
      [("a", Value.int 1)] [("a", Value.int 2)] (by decide) (by decide)
  · exact ((C2_exclude_semantics.2.1 jC2 sC2 [] (strippedJob jC2 sC2) []
        [([] : Variant)] rfl (by decide) (by decide) (by decide)).2)
      [("a", Value.int 1)] [] (by decide) (by decide)

/-- C3: includes are applied to each surviving candidate in declaration
order; a merge writes every key of the include entry onto the candidate with
the include's value winning; a candidate matching no include entry passes to
the output unchanged; and matrix `a: [1, 2]` with
`include: [\x7ba: 1, b: 9\x7d]` yields exactly `\x7ba: 1, b: 9\x7d` and `\x7ba: 2\x7d`. -/
theorem C3_include_semantics :
    (∀ (inc : Variant) (rest : List Variant) (m : Variant),
      applyIncludes (inc :: rest) m =
        applyIncludes rest (if commonKeysMatch m inc then mergeEntries m inc else m)) ∧
    (∀ (includes : List Variant) (m : Variant),
      (∀ inc ∈ includes, commonKeysMatch m inc = false) → applyIncludes includes m = m) ∧
    (∀ (m inc : Variant) (k : String) (v : Value), (inc.map Prod.fst).Nodup →
      List.lookup k inc = some v → List.lookup k (mergeEntries m inc) = some v) ∧
    (∀ (m inc : Variant) (k : String), List.lookup k inc = none →
      List.lookup k (mergeEntries m inc) = List.lookup k m) ∧
    (∀ (j : Job) (s : Strategy) (vs : List Variant) (j' : Job)
      (includes excludes : List Variant),
      j.strategy = some s → j.GetMatrixes = some (vs, j') →
      ((List.lookup "include" s.matrix).getD []).mapM Value.asMap = some includes →
      ((List.lookup "exclude" (eraseKey "include" s.matrix)).getD []).mapM Value.asMap
        = some excludes →
      ∀ m ∈ (CartesianProduct (strippedMatrix s)).filter
          (fun m' => !(excludes.any (fun exc => commonKeysMatch m' exc))),
        (∀ inc ∈ includes, commonKeysMatch m inc = false) → m ∈ vs) ∧
    (jC3.GetMatrixes).map (fun r => r.1)
      = some [[("a", Value.int 1), ("b", Value.int 9)], [("a", Value.int 2)]] := by
  refine ⟨fun _ _ _ => rfl, fun _ _ h => applyIncludes_of_no_match h,
    fun _ _ _ _ hnd h => lookup_mergeEntries_of_some hnd h,
    fun _ _ _ h => lookup_mergeEntries_of_none h, ?_, by decide⟩
  intro j s vs j' includes excludes hs hGet hI hE m hmem hnomatch
  obtain ⟨includes', excludes', hI', hE', hvs, hj'⟩ := GetMatrixes_some_inv hs hGet
  rw [hI'] at hI
  rw [hE'] at hE
  rw [Option.some.inj hI, Option.some.inj hE] at hvs
  rw [hvs]
  exact List.mem_map.mpr ⟨m, hmem, applyIncludes_of_no_match hnomatch⟩

/-- Witness for C3: the include's value lands on the merged candidate, and
the unmatched candidate `\x7ba: 2\x7d` reaches the output unchanged. -/
theorem C3_witness :
    List.lookup "b" (mergeEntries [("a", Value.int 1)]
      [("a", Value.int 1), ("b", Value.int 9)]) = some (Value.int 9) ∧
    ([("a", Value.int 2)] : Variant) ∈
      [[("a", Value.int 1), ("b", Value.int 9)], [("a", Value.int 2)]] := by
  constructor
  · exact C3_include_semantics.2.2.1 [("a", Value.int 1)]
      [("a", Value.int 1), ("b", Value.int 9)] "b" (Value.int 9) (by decide) (by decide)
  · exact C3_include_semantics.2.2.2.2.1 jC3 sC3
      [[("a", Value.int 1), ("b", Value.int 9)], [("a", Value.int 2)]]
      (strippedJob jC3 sC3) [[("a", Value.int 1), ("b", Value.int 9)]] []
      rfl (by decide) (by decide) (by decide)
      [("a", Value.int 2)] (by decide) (by decide)

/-- C4: on a job with a strategy, `GetMatrixes` leaves behind a strategy
whose matrix no longer has the `include` and `exclude` keys while every other
axis entry and every other field is unchanged (the embedding returns the
mutated job as its second component). -/
theorem C4_strips_include_exclude (j : Job) (s : Strategy) (vs : List Variant)
    (j' : Job) (hs : j.strategy = some s) (hGet : j.GetMatrixes = some (vs, j')) :
    j'.strategy = some (strippedStrategy s) ∧
    (strippedStrategy s).matrix = eraseKey "exclude" (eraseKey "include" s.matrix) ∧
    List.lookup "include" (strippedStrategy s).matrix = none ∧
    List.lookup "exclude" (strippedStrategy s).matrix = none ∧
    (∀ k, k ≠ "include" → k ≠ "exclude" →
      List.lookup k (strippedStrategy s).matrix = List.lookup k s.matrix) ∧
    (strippedStrategy s).failFast = s.failFast ∧
    (strippedStrategy s).maxParallel = s.maxParallel ∧
    j'.name = j.name ∧ j'.rawNeeds = j.rawNeeds ∧ j'.runsOn = j.runsOn ∧
    j'.env = j.env ∧ j'.ifCond = j.ifCond ∧ j'.steps = j.steps ∧
    j'.timeoutMinutes = j.timeoutMinutes ∧ j'.container = j.container ∧
    j'.services = j.services := by
  obtain ⟨_, _, _, _, _, hj'⟩ := GetMatrixes_some_inv hs hGet
  subst hj'
  refine ⟨rfl, rfl, lookup_strippedMatrix_include s, lookup_strippedMatrix_exclude s,
    ?_, rfl, rfl, rfl, rfl, rfl, rfl, rfl, rfl, rfl, rfl, rfl⟩
  intro k hki hke
  show List.lookup k (strippedMatrix s) = List.lookup k s.matrix
  rw [strippedMatrix, lookup_eraseKey_ne _ hke, lookup_eraseKey_ne _ hki]

/-- Witness for C4 at the include-carrying matrix `a: [1, 2]`,
`include: [\x7ba: 1, b: 9\x7d]`: the reserved keys are gone and the axis `a`
is untouched. -/
theorem C4_witness :
    (strippedJob jC3 sC3).strategy = some (strippedStrategy sC3) ∧
    List.lookup "include" (strippedStrategy sC3).matrix = none ∧
    List.lookup "a" (strippedStrategy sC3).matrix = List.lookup "a" sC3.matrix := by
  have h := C4_strips_include_exclude jC3 sC3
    [[("a", Value.int 1), ("b", Value.int 9)], [("a", Value.int 2)]]
    (strippedJob jC3 sC3) rfl (by decide)
  exact ⟨h.1, h.2.2.1, h.2.2.2.2.1 "a" (by decide) (by decide)⟩

/-- C5 counterexample: the claim says the trigger field and the dependency
field normalize identically, a mapping node yielding its keys in both; but
on the same mapping node with key `push`, `On` yields `[push]` while `Needs`
yields the empty sequence, because the source's `Needs` switch has no mapping
case. -/
theorem C5_counterexample :
    wC5.rawOn = YamlNode.mapping ["push"] ∧ jC5.rawNeeds = YamlNode.mapping ["push"] ∧
    wC5.On = ["push"] ∧ jC5.Needs = [] ∧ jC5.Needs ≠ wC5.On := by decide

/-- C5 (amended): `On` normalizes a scalar to a one-element sequence, a
sequence to itself, a mapping to its keys and any other kind to the empty
sequence; `Needs` agrees on scalar and sequence nodes but yields the empty
sequence on a mapping node, like any other unhandled kind. -/
theorem C5_normalization (w : Workflow) (j : Job) :
    (∀ v, w.rawOn = .scalar v → w.On = [v]) ∧
    (∀ vs, w.rawOn = .sequence vs → w.On = vs) ∧
    (∀ ks, w.rawOn = .mapping ks → w.On = ks) ∧
    (w.rawOn = .other → w.On = []) ∧
    (∀ v, j.rawNeeds = .scalar v → j.Needs = [v]) ∧
    (∀ vs, j.rawNeeds = .sequence vs → j.Needs = vs) ∧
    (∀ ks, j.rawNeeds = .mapping ks → j.Needs = []) ∧
    (j.rawNeeds = .other → j.Needs = []) := by
  refine ⟨fun v h => ?_, fun vs h => ?_, fun ks h => ?_, fun h => ?_,
    fun v h => ?_, fun vs h => ?_, fun ks h => ?_, fun h => ?_⟩ <;>
    first
      | rw [Workflow.On, h]
      | rw [Job.Needs, h]

/-- Witness for C5 at the mapping node with key `push`. -/
theorem C5_witness : wC5.On = ["push"] ∧ jC5.Needs = [] :=
  ⟨(C5_normalization wC5 jC5).2.2.1 ["push"] rfl,
   (C5_normalization wC5 jC5).2.2.2.2.2.2.1 ["push"] rfl⟩

/-- C6 counterexample: the claim says the input `node-version: "16"` yields
the key `INPUT_NODE_VERSION`, but the replaced character class `[^A-Z0-9-]`
keeps hyphens, so no such entry exists in the synthesized environment. -/
theorem C6_counterexample :
    List.lookup "INPUT_NODE_VERSION" stepC6.GetEnv = none ∧
    ("INPUT_NODE_VERSION", "16") ∉ stepC6.GetEnv := by decide

/-- C6 (amended): the input `node-version: "16"` yields the environment
entry `INPUT_NODE-VERSION` with value `"16"` (the hyphen is inside the
preserved class `[A-Z0-9-]` and survives). -/
theorem C6_input_env :
    stepC6.GetEnv = [("INPUT_NODE-VERSION", "16")] ∧
    List.lookup "INPUT_NODE-VERSION" stepC6.GetEnv = some "16" := by decide

/-- C7: a step with a non-empty run body is classified Run regardless of
uses; otherwise a `docker://` uses is a remote container image, a `./` uses
is a local action, and anything else, the empty uses included, is a remote
action. -/
theorem C7_step_classification (s : Step) :
    (s.run ≠ "" → s.stepType = .stepTypeRun) ∧
    (s.run = "" → hasPrefixStr s.uses "docker://" = true →
      s.stepType = .stepTypeUsesDockerURL) ∧
    (s.run = "" → hasPrefixStr s.uses "docker://" = false →
      hasPrefixStr s.uses "./" = true → s.stepType = .stepTypeUsesActionLocal) ∧
    (s.run = "" → hasPrefixStr s.uses "docker://" = false →
      hasPrefixStr s.uses "./" = false → s.stepType = .stepTypeUsesActionRemote) := by
  refine ⟨fun h => ?_, fun h1 h2 => ?_, fun h1 h2 h3 => ?_, fun h1 h2 h3 => ?_⟩ <;>
    simp [Step.stepType, bne_iff_ne, *]

/-- Witness for C7 at the four step shapes, the run-with-uses step included. -/
theorem C7_witness :
    stepC7run.stepType = .stepTypeRun ∧
    stepC7docker.stepType = .stepTypeUsesDockerURL ∧
    stepC7local.stepType = .stepTypeUsesActionLocal ∧
    stepC7remote.stepType = .stepTypeUsesActionRemote :=
  ⟨(C7_step_classification stepC7run).1 (by decide),
   (C7_step_classification stepC7docker).2.1 rfl (by decide),
   (C7_step_classification stepC7local).2.2.1 rfl (by decide) (by decide),
   (C7_step_classification stepC7remote).2.2.2 rfl (by decide) (by decide)⟩

/-- C8: on a stored job with an empty name, `GetJob` returns the job with its
name defaulted to the identifier, mutating the stored job so that a repeated
lookup returns the same job and the same workflow state; on an absent
identifier it returns the explicit absent result and leaves the workflow
unchanged. -/
theorem C8_getjob (w : Workflow) (jobID : String) :
    (∀ jb, List.lookup jobID w.jobs = some jb → jb.name = "" →
      (w.GetJob jobID).1 = some { jb with name := jobID } ∧
      ((w.GetJob jobID).2.GetJob jobID).1 = some { jb with name := jobID } ∧
      ((w.GetJob jobID).2.GetJob jobID).2 = (w.GetJob jobID).2) ∧
    (List.lookup jobID w.jobs = none → w.GetJob jobID = (none, w)) := by
  constructor
  · intro jb hlk hname
    obtain ⟨l', h1, h2⟩ := getJobList_idem hlk hname
    simp [Workflow.GetJob, h1, h2]
  · intro h
    simp only [Workflow.GetJob, getJobList_of_lookup_none h]

/-- Witness for C8: the job stored as `build` with an empty name, and a miss
on an absent identifier. -/
theorem C8_witness :
    (wC8.GetJob "build").1 = some { emptyJob with name := "build" } ∧
    ((wC8.GetJob "build").2.GetJob "build").1 = some { emptyJob with name := "build" } ∧
    ((wC8.GetJob "build").2.GetJob "build").2 = (wC8.GetJob "build").2 ∧
    wC8.GetJob "missing" = (none, wC8) := by
  obtain ⟨a, b, c⟩ := (C8_getjob wC8 "build").1 emptyJob (by decide) rfl
  exact ⟨a, b, c, (C8_getjob wC8 "missing").2 (by decide)⟩

end ActModel
